import Mathlib

/-!
Verification development for the epic-wallet output/ledger reconciliation
engine and coinbase reward builder (libwallet/src/internal/updater.rs).

The wallet backend storage, the keychain and the secp256k1 commitment
primitives are external collaborators of the file under study; they are
embedded here as explicit state passing over association lists (the spec
describes the output table as keyed by key identifier and the transaction
log as keyed by numeric id per account) and as a free term algebra of
commitments.  All functions are executable.
-/

namespace EpicWallet

/-- Pedersen commitments, embedded as a free term algebra over the
operations exposed by the external secp collaborator: a keyed commitment
to a value, a value-only commitment, stored (opaque) commitment bytes,
and the group operations used by commit_sum. -/
inductive Commit where
  | zero : Commit
  | fromKey (value keyId : Nat) : Commit
  | valueOnly (value : Nat) : Commit
  | stored (tag : Nat) : Commit
  | add (a b : Commit) : Commit
  | neg (a : Commit) : Commit
deriving DecidableEq, Repr

/-- The secp commit_sum capability over lists of positive and negative
commitments, as a free combination. -/
def commit_sum (pos neg : List Commit) : Commit :=
  neg.foldl (fun a c => Commit.add a (Commit.neg c)) (pos.foldl Commit.add Commit.zero)

/-- Output status enum, as in libwallet types. -/
inductive OutputStatus where
  | Unconfirmed : OutputStatus
  | Unspent : OutputStatus
  | Locked : OutputStatus
  | Spent : OutputStatus
  | Deleted : OutputStatus
deriving DecidableEq, Repr

/-- A locally tracked output record (OutputData in libwallet types).
Key identifiers are embedded as naturals. -/
structure OutputData where
  root_key_id : Nat
  key_id : Nat
  n_child : Nat
  mmr_index : Option Nat
  commit : Option Commit
  value : Nat
  status : OutputStatus
  height : Nat
  lock_height : Nat
  is_coinbase : Bool
  tx_log_entry : Option Nat
deriving DecidableEq, Repr

/-- Modelled from the spec (types.rs is not in src): section 4.1 status
machine, confirmation edge.  Unconfirmed moves to Unspent on confirmation;
every other status is left unchanged. -/
def OutputData.mark_unspent (o : OutputData) : OutputData :=
  match o.status with
  | OutputStatus.Unconfirmed => { o with status := OutputStatus.Unspent }
  | _ => o

/-- Modelled from the spec (types.rs is not in src): section 4.1 status
machine plus step 5 of section 4.2 (an unreported output is marked Spent).
Unspent, Locked and Unconfirmed move to Spent; the terminal statuses Spent
and Deleted are unchanged. -/
def OutputData.mark_spent (o : OutputData) : OutputData :=
  match o.status with
  | OutputStatus.Unspent => { o with status := OutputStatus.Spent }
  | OutputStatus.Locked => { o with status := OutputStatus.Spent }
  | OutputStatus.Unconfirmed => { o with status := OutputStatus.Spent }
  | _ => o

/-- Modelled from the spec (types.rs is not in src): number of
confirmations of an output at a given chain height; zero when the output
sits above the current height. -/
def OutputData.num_confirmations (o : OutputData) (current_height : Nat) : Nat :=
  if o.height > current_height then 0 else current_height - o.height + 1

/-- Transaction log entry types, as in libwallet types. -/
inductive TxLogEntryType where
  | ConfirmedCoinbase : TxLogEntryType
  | TxReceived : TxLogEntryType
  | TxSent : TxLogEntryType
  | TxReceivedCancelled : TxLogEntryType
  | TxSentCancelled : TxLogEntryType
deriving DecidableEq, Repr

/-- A transaction log record (TxLogEntry in libwallet types).  Timestamps
are embedded as naturals supplied by the caller. -/
structure TxLogEntry where
  parent_key_id : Nat
  id : Nat
  tx_slate_id : Option Nat
  tx_type : TxLogEntryType
  creation_ts : Nat
  confirmation_ts : Option Nat
  confirmed : Bool
  amount_credited : Nat
  amount_debited : Nat
  num_inputs : Nat
  num_outputs : Nat
  kernel_excess : Option Commit
  kernel_lookup_min_height : Option Nat
deriving DecidableEq, Repr

/-- Modelled from the spec (types.rs is not in src): a fresh TxLogEntry
with the given parent, type and id, unconfirmed, zero amounts, created at
the supplied time. -/
def TxLogEntry.new (parent : Nat) (t : TxLogEntryType) (id : Nat) (now : Nat) : TxLogEntry :=
  { parent_key_id := parent, id := id, tx_slate_id := none, tx_type := t,
    creation_ts := now, confirmation_ts := none, confirmed := false,
    amount_credited := 0, amount_debited := 0, num_inputs := 0, num_outputs := 0,
    kernel_excess := none, kernel_lookup_min_height := none }

/-- The persisted wallet state for the active account: output table,
transaction log, last confirmed height, the monotonic transaction-log id
counter and the key-derivation counter. -/
structure WalletState where
  parent_key_id : Nat
  outputs : List OutputData
  txLog : List TxLogEntry
  last_confirmed_height : Nat
  next_tx_log_id : Nat
  deriv : Nat
deriving DecidableEq, Repr

/-- Derived wallet summary (WalletInfo in libwallet types). -/
structure WalletInfo where
  last_confirmed_height : Nat
  minimum_confirmations : Nat
  total : Nat
  amount_awaiting_finalization : Nat
  amount_awaiting_confirmation : Nat
  amount_immature : Nat
  amount_locked : Nat
  amount_currently_spendable : Nat
deriving DecidableEq, Repr

/-- A coinbase build request (BlockFees). -/
structure BlockFees where
  fees : Nat
  height : Nat
  key_id : Option Nat
deriving DecidableEq, Repr

/-- The result of the external reward-output construction primitive. -/
structure RewardOut where
  out_commit : Commit
  kernel_fee : Nat
deriving DecidableEq, Repr

/-- Chain parameters and the external cryptographic capabilities, passed
as an explicit configuration object (spec section 9). -/
structure Config where
  coinbase_maturity : Nat
  reward_schedule : Nat → Nat
  foundation_schedule : Nat → Nat
  reward_output : Nat → Nat → Nat → Option RewardOut
  foundation_output : Nat → Nat → Option RewardOut

/-- Backend get: look an output up by its key identifier (the spec keys
the output table by key identifier). -/
def batchGet (outs : List OutputData) (id : Nat) : Option OutputData :=
  outs.find? (fun o => o.key_id == id)

/-- Backend save: upsert an output, replacing the record stored under its
key identifier, appending when absent. -/
def saveOutput (o : OutputData) (outs : List OutputData) : List OutputData :=
  match outs with
  | [] => [o]
  | x :: xs => if x.key_id == o.key_id then o :: xs else x :: saveOutput o xs

/-- Backend delete: hard-delete the record stored under a key identifier. -/
def deleteOutput (id : Nat) (outs : List OutputData) : List OutputData :=
  outs.filter (fun o => o.key_id != id)

/-- Backend save of a transaction log entry under (account, id). -/
def saveTxLogEntry (t : TxLogEntry) (parent_key_id : Nat)
    (log : List TxLogEntry) : List TxLogEntry :=
  match log with
  | [] => [t]
  | x :: xs =>
    if x.parent_key_id == parent_key_id && x.id == t.id then t :: xs
    else x :: saveTxLogEntry t parent_key_id xs

/-- Backend lookup of a transaction log entry by (account, id). -/
def lookupTx (log : List TxLogEntry) (parent_key_id id : Nat) : Option TxLogEntry :=
  log.find? (fun t => t.parent_key_id == parent_key_id && t.id == id)

/-- Lookup of a node-reported output (hash, height, mmr index) by
commitment, over the mapping returned by get_outputs_from_node. -/
def apiLookup (api_outputs : List (Commit × Nat × Nat × Nat)) (c : Commit) :
    Option (Nat × Nat × Nat) :=
  (api_outputs.find? (fun e => e.1 == c)).map (fun e => e.2)

/-- Insertion step of the stable-by-creation-time sort used by
retrieve_txs (sort_by_key on creation_ts). -/
def insertByCreation (t : TxLogEntry) : List TxLogEntry → List TxLogEntry
  | [] => [t]
  | x :: xs =>
    if t.creation_ts < x.creation_ts then t :: x :: xs else x :: insertByCreation t xs

/-- Sort transaction log entries by creation timestamp. -/
def sortByCreation (l : List TxLogEntry) : List TxLogEntry :=
  l.foldr insertByCreation []

/-- Embedding of updater.rs retrieve_txs: filter the transaction log by
account, id, slate id and the outstanding-only flag, then sort by
creation time. -/
def retrieve_txs (txLog : List TxLogEntry) (tx_id : Option Nat) (tx_slate_id : Option Nat)
    (parent_key_id : Option Nat) (outstanding_only : Bool) : List TxLogEntry :=
  sortByCreation (txLog.filter (fun tx_entry =>
    (match parent_key_id with
     | some k => tx_entry.parent_key_id == k
     | none => true) &&
    (match tx_id with
     | some i => tx_entry.id == i
     | none => true) &&
    (match tx_slate_id with
     | some t => tx_entry.tx_slate_id == some t
     | none => true) &&
    (match outstanding_only with
     | true =>
       !tx_entry.confirmed &&
         (tx_entry.tx_type == TxLogEntryType.TxReceived
           || tx_entry.tx_type == TxLogEntryType.TxSent)
     | false => true)))

/-- The stored commitment of an output when present, otherwise the
commitment derived from its value and key identifier through the
keychain. -/
def resolveCommit (o : OutputData) : Commit :=
  match o.commit with
  | some c => c
  | none => Commit.fromKey o.value o.key_id

/-- Embedding of the candidate-output selection inside updater.rs
map_wallet_outputs: the account's non-Spent outputs, restricted (when not
updating all) to those whose linked transaction-log id matches an
outstanding entry, outputs with no linked entry passing the filter. -/
def map_wallet_outputs_candidates (parent_key_id : Nat) (update_all : Bool)
    (s : WalletState) : List OutputData :=
  let unspents := s.outputs.filter
    (fun x => x.root_key_id == parent_key_id && x.status != OutputStatus.Spent)
  let tx_entries := retrieve_txs s.txLog none none (some parent_key_id) true
  match update_all with
  | false => unspents.filter (fun x =>
      match x.tx_log_entry with
      | some t => (tx_entries.find? (fun te => te.id == t)).isSome
      | none => true)
  | true => unspents

/-- HashMap insert keyed by commitment. -/
def insertCommit (c : Commit) (v : Nat × Option Nat)
    (m : List (Commit × Nat × Option Nat)) : List (Commit × Nat × Option Nat) :=
  match m with
  | [] => [(c, v)]
  | x :: xs => if x.1 == c then (c, v) :: xs else x :: insertCommit c v xs

/-- Embedding of updater.rs map_wallet_outputs: the candidate outputs,
each inserted into a map keyed by resolved commitment, valued by key
identifier and mmr index. -/
def map_wallet_outputs (parent_key_id : Nat) (update_all : Bool)
    (s : WalletState) : List (Commit × Nat × Option Nat) :=
  (map_wallet_outputs_candidates parent_key_id update_all s).foldl
    (fun m out => insertCommit (resolveCommit out) (out.key_id, out.mmr_index) m) []

/-- Embedding of the loop body of updater.rs apply_api_outputs, for one
candidate (commitment, key identifier, mmr index): fetch the output; if
the node reports the commitment, synthesize a ConfirmedCoinbase log entry
on the first confirmation of a coinbase output, or confirm the linked log
entry of a non-coinbase output, record the node-observed height and mark
the output unspent; otherwise mark it spent.  The fetched output is saved
back in every case. -/
def apply_api_output (api_outputs : List (Commit × Nat × Nat × Nat))
    (height parent_key_id now : Nat) (s : WalletState) :
    Commit × Nat × Option Nat → WalletState
  | (commit, id, _mmr_index) =>
  match batchGet s.outputs id with
  | none => s
  | some output =>
    match apiLookup api_outputs commit with
    | some o =>
      let so :=
        if output.is_coinbase = true ∧ output.status = OutputStatus.Unconfirmed then
          let log_id := s.next_tx_log_id
          let t : TxLogEntry :=
            { TxLogEntry.new parent_key_id TxLogEntryType.ConfirmedCoinbase log_id now with
              confirmed := true
              amount_credited := output.value
              amount_debited := 0
              num_outputs := 1
              kernel_excess := some (commit_sum [commit] [Commit.valueOnly output.value])
              kernel_lookup_min_height := some height
              confirmation_ts := some now }
          ({ s with txLog := saveTxLogEntry t parent_key_id s.txLog,
                    next_tx_log_id := s.next_tx_log_id + 1 },
           { output with tx_log_entry := some log_id })
        else (s, output)
      let s := so.1
      let output := so.2
      let s :=
        if output.is_coinbase = false ∧ output.status = OutputStatus.Unconfirmed then
          match s.txLog.find? (fun t =>
              output.tx_log_entry == some t.id && t.parent_key_id == parent_key_id) with
          | some t =>
            let t2 := { t with confirmation_ts := some now, confirmed := true }
            { s with txLog := saveTxLogEntry t2 parent_key_id s.txLog }
          | none => s
        else s
      let output := { output with height := o.2.1 }
      let output := output.mark_unspent
      { s with outputs := saveOutput output s.outputs }
    | none =>
      { s with outputs := saveOutput output.mark_spent s.outputs }

/-- Embedding of updater.rs apply_api_outputs: abort silently when the
node-reported chain tip is below the wallet's last confirmed height;
otherwise process every candidate output and persist the new last
confirmed height. -/
def apply_api_outputs (wallet_outputs : List (Commit × Nat × Option Nat))
    (api_outputs : List (Commit × Nat × Nat × Nat))
    (height parent_key_id now : Nat) (s : WalletState) : WalletState :=
  if height < s.last_confirmed_height then s
  else
    let s1 := wallet_outputs.foldl
      (apply_api_output api_outputs height parent_key_id now) s
    { s1 with last_confirmed_height := height }

/-- Embedding of updater.rs clean_old_unconfirmed: below height 50 do
nothing; otherwise collect the key identifiers of Unconfirmed coinbase
outputs of positive height lying below height - 50 and delete each.
Subtraction is on Nat, matching the guarded u64 subtraction. -/
def clean_old_unconfirmed (height : Nat) (s : WalletState) : WalletState :=
  if height < 50 then s
  else
    let ids_to_del := (s.outputs.filter (fun out =>
      out.status == OutputStatus.Unconfirmed
        && out.height > 0
        && out.height < height - 50
        && out.is_coinbase)).map (fun o => o.key_id)
    { s with outputs := ids_to_del.foldl (fun outs id => deleteOutput id outs) s.outputs }

/-- Per-output step of updater.rs cancel_tx_and_outputs: an Unconfirmed
output is hard-deleted, a Locked output is reverted to Unspent and
saved. -/
def cancel_output_step (s : WalletState) (o : OutputData) : WalletState :=
  let s :=
    if o.status = OutputStatus.Unconfirmed then
      { s with outputs := deleteOutput o.key_id s.outputs }
    else s
  if o.status = OutputStatus.Locked then
    { s with outputs := saveOutput { o with status := OutputStatus.Unspent } s.outputs }
  else s

/-- Embedding of updater.rs cancel_tx_and_outputs: within one batch,
delete every Unconfirmed output, revert every Locked output to Unspent,
and flip the entry type of a Sent or Received entry to its Cancelled
variant. -/
def cancel_tx_and_outputs (tx : TxLogEntry) (outputs : List OutputData)
    (parent_key_id : Nat) (s : WalletState) : WalletState :=
  let s := outputs.foldl cancel_output_step s
  let tx :=
    if tx.tx_type = TxLogEntryType.TxSent then
      { tx with tx_type := TxLogEntryType.TxSentCancelled }
    else tx
  let tx :=
    if tx.tx_type = TxLogEntryType.TxReceived then
      { tx with tx_type := TxLogEntryType.TxReceivedCancelled }
    else tx
  { s with txLog := saveTxLogEntry tx parent_key_id s.txLog }

/-- Embedding of updater.rs retrieve_info: aggregate the account's
outputs into the five wallet summary buckets at the last confirmed
height. -/
def retrieve_info (parent_key_id : Nat) (minimum_confirmations : Nat)
    (s : WalletState) : WalletInfo :=
  let current_height := s.last_confirmed_height
  let outputs := s.outputs.filter (fun out => out.root_key_id == parent_key_id)
  let acc := outputs.foldl (fun (a : Nat × Nat × Nat × Nat × Nat) out =>
    let (unspent_total, immature_total, awaiting_finalization_total,
         unconfirmed_total, locked_total) := a
    match out.status with
    | OutputStatus.Unspent =>
      if out.is_coinbase = true ∧ out.lock_height > current_height then
        (unspent_total, immature_total + out.value, awaiting_finalization_total,
         unconfirmed_total, locked_total)
      else if out.num_confirmations current_height < minimum_confirmations then
        (unspent_total, immature_total, awaiting_finalization_total,
         unconfirmed_total + out.value, locked_total)
      else
        (unspent_total + out.value, immature_total, awaiting_finalization_total,
         unconfirmed_total, locked_total)
    | OutputStatus.Unconfirmed =>
      if out.is_coinbase = true then a
      else if minimum_confirmations = 0 then
        (unspent_total, immature_total, awaiting_finalization_total,
         unconfirmed_total + out.value, locked_total)
      else
        (unspent_total, immature_total, awaiting_finalization_total + out.value,
         unconfirmed_total, locked_total)
    | OutputStatus.Locked =>
      (unspent_total, immature_total, awaiting_finalization_total,
       unconfirmed_total, locked_total + out.value)
    | OutputStatus.Spent => a
    | OutputStatus.Deleted => a) (0, 0, 0, 0, 0)
  { last_confirmed_height := current_height
    minimum_confirmations := minimum_confirmations
    total := acc.1 + acc.2.2.2.1 + acc.2.1
    amount_awaiting_finalization := acc.2.2.1
    amount_awaiting_confirmation := acc.2.2.2.1
    amount_immature := acc.2.1
    amount_locked := acc.2.2.2.2
    amount_currently_spendable := acc.1 }

/-- Modelled from the spec (internal/keys.rs is not in src): a
pre-selected key identifier that already maps to an existing tracked key
resolves to that key; otherwise the lookup fails. -/
def retrieve_existing_key (s : WalletState) (key_id : Nat) : Option Nat :=
  (batchGet s.outputs key_id).map (fun o => o.key_id)

/-- Modelled from the spec (internal/keys.rs is not in src): allocate the
next unused key identifier for the account, advancing the derivation
counter. -/
def next_available_key (s : WalletState) : Nat × WalletState :=
  (s.deriv, { s with deriv := s.deriv + 1 })

/-- The key-selection step shared by receive_coinbase and
receive_foundation: reuse a pre-selected key identifier that maps to an
existing tracked key, otherwise allocate the next available key. -/
def coinbase_key_select (block_fees : BlockFees) (s : WalletState) : Nat × WalletState :=
  match block_fees.key_id with
  | some k =>
    match retrieve_existing_key s k with
    | some k0 => (k0, s)
    | none => next_available_key s
  | none => next_available_key s

/-- Modelled from the spec (epic_core consensus is not in src): the
coinbase reward amount is the standard block subsidy plus fees. -/
def reward (cfg : Config) (fees height : Nat) : Nat :=
  cfg.reward_schedule height + fees

/-- Embedding of updater.rs receive_coinbase: select the key, save and
commit a new Unconfirmed coinbase output for the reward amount with lock
height equal to the request height plus the coinbase maturity, and only
then invoke the external reward-output construction; on its failure the
state write stands and no result is returned. -/
def receive_coinbase (cfg : Config) (block_fees : BlockFees) (s : WalletState) :
    WalletState × Option (RewardOut × BlockFees) :=
  let height := block_fees.height
  let lock_height := height + cfg.coinbase_maturity
  let parent_key_id := s.parent_key_id
  let amount := reward cfg block_fees.fees block_fees.height
  let ks := coinbase_key_select block_fees s
  let key_id := ks.1
  let s := ks.2
  let od : OutputData :=
    { root_key_id := parent_key_id, key_id := key_id, n_child := key_id,
      mmr_index := none, commit := some (Commit.fromKey amount key_id), value := amount,
      status := OutputStatus.Unconfirmed, height := height,
      lock_height := lock_height, is_coinbase := true,
      tx_log_entry := none }
  let s := { s with outputs := saveOutput od s.outputs }
  let block_fees := { block_fees with key_id := some key_id }
  match cfg.reward_output key_id block_fees.fees height with
  | some rk => (s, some (rk, block_fees))
  | none => (s, none)

/-- Embedding of updater.rs receive_foundation: as receive_coinbase but
for the cumulative foundation reward amount, which ignores fees. -/
def receive_foundation (cfg : Config) (block_fees : BlockFees) (s : WalletState) :
    WalletState × Option (RewardOut × BlockFees) :=
  let height := block_fees.height
  let lock_height := height + cfg.coinbase_maturity
  let parent_key_id := s.parent_key_id
  let amount := cfg.foundation_schedule block_fees.height
  let ks := coinbase_key_select block_fees s
  let key_id := ks.1
  let s := ks.2
  let od : OutputData :=
    { root_key_id := parent_key_id, key_id := key_id, n_child := key_id,
      mmr_index := none, commit := some (Commit.fromKey amount key_id), value := amount,
      status := OutputStatus.Unconfirmed, height := height,
      lock_height := lock_height, is_coinbase := true,
      tx_log_entry := none }
  let s := { s with outputs := saveOutput od s.outputs }
  let block_fees := { block_fees with key_id := some key_id }
  match cfg.foundation_output key_id height with
  | some rk => (s, some (rk, block_fees))
  | none => (s, none)

/-- A candidate entry is settled in an output table when stepping it
again cannot change anything: either its output is absent, or, when the
node reports its commitment, its status is no longer Unconfirmed and its
height is the node-observed one, or, when the node does not report it,
marking it spent is the identity. -/
def entrySettled (api_outputs : List (Commit × Nat × Nat × Nat))
    (outs : List OutputData) (e : Commit × Nat × Option Nat) : Prop :=
  match batchGet outs e.2.1 with
  | none => True
  | some o =>
    match apiLookup api_outputs e.1 with
    | some r => ¬ o.status = OutputStatus.Unconfirmed ∧ o.height = r.2.1
    | none => o.mark_spent = o

/-!  Concrete fixtures used by witnesses and counterexamples.  -/

/-- A plain Unspent output of value 1000 at height 10. -/
def baseOutput : OutputData :=
  { root_key_id := 0, key_id := 1, n_child := 1, mmr_index := none,
    commit := none, value := 1000, status := OutputStatus.Unspent, height := 10,
    lock_height := 0, is_coinbase := false, tx_log_entry := none }

/-- An Unconfirmed coinbase output created at height 5. -/
def stale5Output : OutputData :=
  { baseOutput with
    value := 7, status := OutputStatus.Unconfirmed, height := 5, is_coinbase := true }

/-- A wallet whose only output is the stale height 5 coinbase candidate. -/
def stale5State : WalletState :=
  { parent_key_id := 0, outputs := [stale5Output], txLog := [],
    last_confirmed_height := 0, next_tx_log_id := 1, deriv := 2 }

/-- A wallet holding one Unspent output with no linked transaction-log
entry and an empty transaction log. -/
def unlinkedState : WalletState :=
  { parent_key_id := 0, outputs := [baseOutput], txLog := [],
    last_confirmed_height := 10, next_tx_log_id := 1, deriv := 2 }

/-- The wallet of the summary-aggregation example: one Unspent output of
value 1000 at height 10, last confirmed height 10. -/
def summaryState : WalletState := unlinkedState

/-- The same wallet with the output made coinbase and lock height 20. -/
def summaryCoinbaseState : WalletState :=
  { summaryState with outputs := [{ baseOutput with is_coinbase := true, lock_height := 20 }] }

/-- A wallet at last confirmed height 100 holding an Unconfirmed
candidate, used against a node reporting tip 90. -/
def staleTipState : WalletState :=
  { parent_key_id := 0,
    outputs := [{ baseOutput with status := OutputStatus.Unconfirmed, is_coinbase := true }],
    txLog := [], last_confirmed_height := 100, next_tx_log_id := 1, deriv := 2 }

/-- A Locked output linked to transaction-log entry 4. -/
def lockedOutput : OutputData :=
  { baseOutput with
    key_id := 3, n_child := 3, status := OutputStatus.Locked, tx_log_entry := some 4 }

/-- An Unconfirmed output linked to transaction-log entry 4. -/
def unconfOutput : OutputData :=
  { baseOutput with
    key_id := 5, n_child := 5, status := OutputStatus.Unconfirmed, tx_log_entry := some 4 }

/-- An unconfirmed TxSent entry with id 4. -/
def sentEntry : TxLogEntry :=
  { TxLogEntry.new 0 TxLogEntryType.TxSent 4 9 with tx_slate_id := some 7 }

/-- A wallet holding the locked and unconfirmed outputs of entry 4. -/
def cancelState : WalletState :=
  { parent_key_id := 0, outputs := [lockedOutput, unconfOutput], txLog := [sentEntry],
    last_confirmed_height := 10, next_tx_log_id := 5, deriv := 6 }

/-- The candidate map of the stale height 5 coinbase wallet. -/
def coinbaseCandidates : List (Commit × Nat × Option Nat) :=
  [(Commit.fromKey 7 1, 1, none)]

/-- A node response reporting the stale coinbase commitment at height 42. -/
def coinbaseApiOutputs : List (Commit × Nat × Nat × Nat) :=
  [(Commit.fromKey 7 1, 99, 42, 3)]

/-- A concrete configuration for the coinbase builder witnesses. -/
def sampleConfig : Config :=
  { coinbase_maturity := 1440, reward_schedule := fun _ => 16,
    foundation_schedule := fun _ => 3,
    reward_output := fun k f _ => some { out_commit := Commit.fromKey (16 + f) k, kernel_fee := 0 },
    foundation_output := fun k _ => some { out_commit := Commit.fromKey 3 k, kernel_fee := 0 } }

/-- A coinbase build request at height 100 with fees 2 and a
pre-selected key identifier 1, which exists in unlinkedState. -/
def sampleBlockFees : BlockFees := { fees := 2, height := 100, key_id := some 1 }

/-!  Lemmas about the backend store primitives.  -/

theorem batchGet_eq_some_key {outs : List OutputData} {id : Nat} {o : OutputData}
    (h : batchGet outs id = some o) : o.key_id = id := by
  have := List.find?_some h
  simpa using this

theorem batchGet_saveOutput_self (o : OutputData) (outs : List OutputData) :
    batchGet (saveOutput o outs) o.key_id = some o := by
  induction outs with
  | nil =>
    unfold saveOutput batchGet
    rw [List.find?_cons_of_pos _ (by simp)]
  | cons x xs ih =>
    by_cases hx : x.key_id = o.key_id
    · unfold saveOutput batchGet
      rw [if_pos (by simp [hx]), List.find?_cons_of_pos _ (by simp)]
    · unfold saveOutput batchGet
      rw [if_neg (by simp [hx])]
      unfold batchGet at ih
      rw [List.find?_cons_of_neg _ (by simp [hx]), ih]

theorem batchGet_saveOutput_other (o : OutputData) (outs : List OutputData) {k : Nat}
    (hk : k ≠ o.key_id) : batchGet (saveOutput o outs) k = batchGet outs k := by
  induction outs with
  | nil =>
    unfold saveOutput batchGet
    rw [List.find?_cons_of_neg _ (by simp [Ne.symm hk])]
  | cons x xs ih =>
    by_cases hx : x.key_id = o.key_id
    · unfold saveOutput batchGet
      rw [if_pos (by simp [hx])]
      have hxk : ¬ x.key_id = k := fun h => hk (h ▸ hx ▸ rfl)
      rw [List.find?_cons_of_neg _ (by simp [Ne.symm hk]),
        List.find?_cons_of_neg _ (by simp [hxk])]
    · unfold saveOutput batchGet
      rw [if_neg (by simp [hx])]
      unfold batchGet at ih
      by_cases hxk : x.key_id = k
      · rw [List.find?_cons_of_pos _ (by simp [hxk]), List.find?_cons_of_pos _ (by simp [hxk])]
      · rw [List.find?_cons_of_neg _ (by simp [hxk]), List.find?_cons_of_neg _ (by simp [hxk]),
          ih]

theorem saveOutput_of_batchGet_eq {o : OutputData} {outs : List OutputData}
    (h : batchGet outs o.key_id = some o) : saveOutput o outs = outs := by
  induction outs with
  | nil => simp [batchGet] at h
  | cons x xs ih =>
    by_cases hx : x.key_id = o.key_id
    · unfold batchGet at h
      rw [List.find?_cons_of_pos _ (by simp [hx])] at h
      have hxo : x = o := by injection h
      unfold saveOutput
      rw [if_pos (by simp [hx]), hxo]
    · unfold batchGet at h
      rw [List.find?_cons_of_neg _ (by simp [hx])] at h
      unfold saveOutput
      rw [if_neg (by simp [hx])]
      rw [ih h]

theorem batchGet_deleteOutput_self (id : Nat) (outs : List OutputData) :
    batchGet (deleteOutput id outs) id = none := by
  induction outs with
  | nil => rfl
  | cons x xs ih =>
    by_cases hx : x.key_id = id
    · unfold deleteOutput at ih ⊢
      rw [List.filter_cons_of_neg (by simp [hx])]
      exact ih
    · unfold deleteOutput at ih ⊢
      rw [List.filter_cons_of_pos (by simp [hx])]
      unfold batchGet at ih ⊢
      rw [List.find?_cons_of_neg _ (by simp [hx])]
      exact ih

theorem batchGet_deleteOutput_other (id : Nat) (outs : List OutputData) {k : Nat}
    (hk : k ≠ id) : batchGet (deleteOutput id outs) k = batchGet outs k := by
  induction outs with
  | nil => rfl
  | cons x xs ih =>
    by_cases hx : x.key_id = id
    · unfold deleteOutput at ih ⊢
      rw [List.filter_cons_of_neg (by simp [hx])]
      unfold batchGet at ih ⊢
      have hxk : ¬ x.key_id = k := fun h => hk (h ▸ hx ▸ rfl)
      rw [List.find?_cons_of_neg _ (by simp [hxk])]
      exact ih
    · unfold deleteOutput at ih ⊢
      rw [List.filter_cons_of_pos (by simp [hx])]
      unfold batchGet at ih ⊢
      by_cases hxk : x.key_id = k
      · rw [List.find?_cons_of_pos _ (by simp [hxk]), List.find?_cons_of_pos _ (by simp [hxk])]
      · rw [List.find?_cons_of_neg _ (by simp [hxk]), List.find?_cons_of_neg _ (by simp [hxk]),
          ih]

theorem lookupTx_saveTxLogEntry_self (t : TxLogEntry) (p : Nat) (log : List TxLogEntry)
    (hp : t.parent_key_id = p) : lookupTx (saveTxLogEntry t p log) p t.id = some t := by
  induction log with
  | nil =>
    unfold saveTxLogEntry lookupTx
    rw [List.find?_cons_of_pos _ (by simp [hp])]
  | cons x xs ih =>
    by_cases hx : x.parent_key_id = p ∧ x.id = t.id
    · unfold saveTxLogEntry lookupTx
      rw [if_pos (by simp [hx.1, hx.2]), List.find?_cons_of_pos _ (by simp [hp])]
    · have hcond : ¬ (x.parent_key_id == p && x.id == t.id) = true := by
        rcases not_and_or.mp hx with h | h <;> simp [h]
      unfold saveTxLogEntry lookupTx
      rw [if_neg hcond]
      unfold lookupTx at ih
      rw [List.find?_cons_of_neg _ (by exact hcond), ih]

theorem saveTxLogEntry_append {t : TxLogEntry} {p : Nat} {log : List TxLogEntry}
    (h : ∀ x ∈ log, ¬(x.parent_key_id = p ∧ x.id = t.id)) :
    saveTxLogEntry t p log = log ++ [t] := by
  induction log with
  | nil => rfl
  | cons x xs ih =>
    have hx := h x (List.mem_cons_self x xs)
    have hcond : ¬ (x.parent_key_id == p && x.id == t.id) = true := by
      rcases not_and_or.mp hx with h2 | h2 <;> simp [h2]
    unfold saveTxLogEntry
    rw [if_neg hcond, List.cons_append, ih (fun y hy => h y (List.mem_cons_of_mem x hy))]

theorem mem_insertByCreation {a t : TxLogEntry} {l : List TxLogEntry} :
    a ∈ insertByCreation t l ↔ a = t ∨ a ∈ l := by
  induction l with
  | nil => simp [insertByCreation]
  | cons x xs ih =>
    unfold insertByCreation
    by_cases hc : t.creation_ts < x.creation_ts
    · rw [if_pos hc]
      simp
    · rw [if_neg hc]
      simp only [List.mem_cons, ih]
      tauto

theorem mem_sortByCreation {a : TxLogEntry} {l : List TxLogEntry} :
    a ∈ sortByCreation l ↔ a ∈ l := by
  induction l with
  | nil => simp [sortByCreation]
  | cons x xs ih =>
    unfold sortByCreation at ih ⊢
    rw [List.foldr_cons, mem_insertByCreation, ih, List.mem_cons]

theorem mem_retrieve_txs_outstanding {log : List TxLogEntry} {p : Nat} {te : TxLogEntry} :
    te ∈ retrieve_txs log none none (some p) true ↔
      te ∈ log ∧ te.parent_key_id = p ∧ te.confirmed = false ∧
        (te.tx_type = TxLogEntryType.TxReceived ∨ te.tx_type = TxLogEntryType.TxSent) := by
  unfold retrieve_txs
  rw [mem_sortByCreation, List.mem_filter]
  simp [Bool.and_eq_true, Bool.or_eq_true, Bool.not_eq_true']

theorem foldl_deleteOutput_eq_filter (ids : List Nat) (outs : List OutputData) :
    ids.foldl (fun os i => deleteOutput i os) outs
      = outs.filter (fun o => !(ids.contains o.key_id)) := by
  induction ids generalizing outs with
  | nil => simp
  | cons i ids ih =>
    rw [List.foldl_cons, ih]
    unfold deleteOutput
    rw [List.filter_filter]
    apply List.filter_congr
    intro x _
    simp only [List.contains_cons, Bool.not_or, bne, Bool.and_comm]

theorem cancel_output_step_txLog (s : WalletState) (o : OutputData) :
    (cancel_output_step s o).txLog = s.txLog := by
  unfold cancel_output_step
  split_ifs <;> rfl

theorem foldl_cancel_output_step_txLog (l : List OutputData) (s : WalletState) :
    (l.foldl cancel_output_step s).txLog = s.txLog := by
  induction l generalizing s with
  | nil => rfl
  | cons o l ih => rw [List.foldl_cons, ih, cancel_output_step_txLog]

theorem batchGet_cancel_output_step_other (s : WalletState) (o : OutputData) {k : Nat}
    (hk : k ≠ o.key_id) :
    batchGet (cancel_output_step s o).outputs k = batchGet s.outputs k := by
  unfold cancel_output_step
  split_ifs with h1 h2 h2
  · show batchGet (saveOutput { o with status := OutputStatus.Unspent }
      (deleteOutput o.key_id s.outputs)) k = _
    rw [batchGet_saveOutput_other _ _ (by simpa using hk),
      batchGet_deleteOutput_other _ _ hk]
  · exact batchGet_deleteOutput_other _ _ hk
  · exact batchGet_saveOutput_other _ _ (by simpa using hk)
  · rfl

theorem foldl_cancel_output_step_other (l : List OutputData) (s : WalletState) {k : Nat}
    (hk : ∀ o ∈ l, o.key_id ≠ k) :
    batchGet (l.foldl cancel_output_step s).outputs k = batchGet s.outputs k := by
  induction l generalizing s with
  | nil => rfl
  | cons o l ih =>
    rw [List.foldl_cons, ih _ (fun o2 h2 => hk o2 (List.mem_cons_of_mem o h2)),
      batchGet_cancel_output_step_other _ _ (Ne.symm (hk o (List.mem_cons_self o l)))]

theorem foldl_cancel_output_step_spec (l : List OutputData) (s : WalletState)
    (hnodup : (l.map (fun o => o.key_id)).Nodup) :
    (∀ o ∈ l, o.status = OutputStatus.Unconfirmed →
      batchGet (l.foldl cancel_output_step s).outputs o.key_id = none) ∧
    (∀ o ∈ l, o.status = OutputStatus.Locked →
      batchGet (l.foldl cancel_output_step s).outputs o.key_id
        = some { o with status := OutputStatus.Unspent }) := by
  induction l generalizing s with
  | nil => simp
  | cons o0 l ih =>
    rw [List.map_cons, List.nodup_cons] at hnodup
    obtain ⟨hnotin, hnd2⟩ := hnodup
    have hother : ∀ o2 ∈ l, o2.key_id ≠ o0.key_id := by
      intro o2 h2 heq
      exact hnotin (heq ▸ List.mem_map_of_mem _ h2)
    constructor
    · intro o ho hst
      rcases List.mem_cons.mp ho with rfl | hol
      · rw [List.foldl_cons, foldl_cancel_output_step_other _ _ hother]
        have hnl : ¬ (o.status = OutputStatus.Locked) := by
          rw [hst]
          intro h
          cases h
        unfold cancel_output_step
        rw [if_pos hst, if_neg hnl]
        exact batchGet_deleteOutput_self _ _
      · rw [List.foldl_cons]
        exact (ih _ hnd2).1 o hol hst
    · intro o ho hst
      rcases List.mem_cons.mp ho with rfl | hol
      · rw [List.foldl_cons, foldl_cancel_output_step_other _ _ hother]
        have hnu : ¬ (o.status = OutputStatus.Unconfirmed) := by
          rw [hst]
          intro h
          cases h
        unfold cancel_output_step
        rw [if_neg hnu, if_pos hst]
        exact batchGet_saveOutput_self _ _
      · rw [List.foldl_cons]
        exact (ih _ hnd2).2 o hol hst

theorem coinbase_key_select_parent (bf : BlockFees) (s : WalletState) :
    (coinbase_key_select bf s).2.parent_key_id = s.parent_key_id := by
  unfold coinbase_key_select next_available_key
  split
  · split <;> rfl
  · rfl

theorem receive_coinbase_state (cfg : Config) (block_fees : BlockFees) (s : WalletState) :
    (receive_coinbase cfg block_fees s).1
      = { (coinbase_key_select block_fees s).2 with
          outputs := saveOutput
            { root_key_id := s.parent_key_id,
              key_id := (coinbase_key_select block_fees s).1,
              n_child := (coinbase_key_select block_fees s).1,
              mmr_index := none,
              commit := some (Commit.fromKey (reward cfg block_fees.fees block_fees.height)
                (coinbase_key_select block_fees s).1),
              value := reward cfg block_fees.fees block_fees.height,
              status := OutputStatus.Unconfirmed,
              height := block_fees.height,
              lock_height := block_fees.height + cfg.coinbase_maturity,
              is_coinbase := true, tx_log_entry := none }
            (coinbase_key_select block_fees s).2.outputs } := by
  simp only [receive_coinbase]
  rcases hx : cfg.reward_output (coinbase_key_select block_fees s).1 block_fees.fees
      block_fees.height with _ | rk <;> rfl

theorem receive_foundation_state (cfg : Config) (block_fees : BlockFees) (s : WalletState) :
    (receive_foundation cfg block_fees s).1
      = { (coinbase_key_select block_fees s).2 with
          outputs := saveOutput
            { root_key_id := s.parent_key_id,
              key_id := (coinbase_key_select block_fees s).1,
              n_child := (coinbase_key_select block_fees s).1,
              mmr_index := none,
              commit := some (Commit.fromKey (cfg.foundation_schedule block_fees.height)
                (coinbase_key_select block_fees s).1),
              value := cfg.foundation_schedule block_fees.height,
              status := OutputStatus.Unconfirmed,
              height := block_fees.height,
              lock_height := block_fees.height + cfg.coinbase_maturity,
              is_coinbase := true, tx_log_entry := none }
            (coinbase_key_select block_fees s).2.outputs } := by
  simp only [receive_foundation]
  rcases hx : cfg.foundation_output (coinbase_key_select block_fees s).1 block_fees.height
      with _ | rk <;> rfl

theorem receive_coinbase_reuse_step (cfg : Config) (bf : BlockFees) (st : WalletState)
    (k r : Nat) (h1 : bf.key_id = some k)
    (hget : batchGet st.outputs k = some
      { root_key_id := r, key_id := k, n_child := k, mmr_index := none,
        commit := some (Commit.fromKey (reward cfg bf.fees bf.height) k),
        value := reward cfg bf.fees bf.height, status := OutputStatus.Unconfirmed,
        height := bf.height, lock_height := bf.height + cfg.coinbase_maturity,
        is_coinbase := true, tx_log_entry := none })
    (hr : st.parent_key_id = r) :
    (receive_coinbase cfg bf st).1 = st := by
  have hsel : coinbase_key_select bf st = (k, st) := by
    unfold coinbase_key_select
    rw [h1]
    show (match retrieve_existing_key st k with
      | some k0 => (k0, st)
      | none => next_available_key st) = (k, st)
    unfold retrieve_existing_key
    rw [hget]
    rfl
  rw [receive_coinbase_state, hsel]
  show { st with outputs := saveOutput _ st.outputs } = st
  rw [← hr] at hget
  rw [saveOutput_of_batchGet_eq (by exact hget)]

theorem receive_foundation_reuse_step (cfg : Config) (bf : BlockFees) (st : WalletState)
    (k r : Nat) (h1 : bf.key_id = some k)
    (hget : batchGet st.outputs k = some
      { root_key_id := r, key_id := k, n_child := k, mmr_index := none,
        commit := some (Commit.fromKey (cfg.foundation_schedule bf.height) k),
        value := cfg.foundation_schedule bf.height, status := OutputStatus.Unconfirmed,
        height := bf.height, lock_height := bf.height + cfg.coinbase_maturity,
        is_coinbase := true, tx_log_entry := none })
    (hr : st.parent_key_id = r) :
    (receive_foundation cfg bf st).1 = st := by
  have hsel : coinbase_key_select bf st = (k, st) := by
    unfold coinbase_key_select
    rw [h1]
    show (match retrieve_existing_key st k with
      | some k0 => (k0, st)
      | none => next_available_key st) = (k, st)
    unfold retrieve_existing_key
    rw [hget]
    rfl
  rw [receive_foundation_state, hsel]
  show { st with outputs := saveOutput _ st.outputs } = st
  rw [← hr] at hget
  rw [saveOutput_of_batchGet_eq (by exact hget)]

theorem mark_unspent_of_unconfirmed {o : OutputData}
    (h : o.status = OutputStatus.Unconfirmed) :
    o.mark_unspent = { o with status := OutputStatus.Unspent } := by
  simp [OutputData.mark_unspent, h]

theorem mark_unspent_of_not_unconfirmed {o : OutputData}
    (h : ¬ o.status = OutputStatus.Unconfirmed) : o.mark_unspent = o := by
  cases hs : o.status <;> first
    | exact absurd hs h
    | simp [OutputData.mark_unspent, hs]

theorem mark_spent_mark_spent (o : OutputData) : o.mark_spent.mark_spent = o.mark_spent := by
  cases hs : o.status <;> simp [OutputData.mark_spent, hs]

theorem mark_spent_status (o : OutputData) :
    ¬ o.mark_spent.status = OutputStatus.Unconfirmed := by
  cases hs : o.status <;> simp [OutputData.mark_spent, hs]

theorem mark_unspent_key (o : OutputData) : o.mark_unspent.key_id = o.key_id := by
  cases hs : o.status <;> simp [OutputData.mark_unspent, hs]

theorem mark_spent_key (o : OutputData) : o.mark_spent.key_id = o.key_id := by
  cases hs : o.status <;> simp [OutputData.mark_spent, hs]

theorem apply_api_output_get_none {api_outputs : List (Commit × Nat × Nat × Nat)}
    {height parent_key_id now : Nat} {s : WalletState} {c : Commit} {id : Nat} {m : Option Nat}
    (hget : batchGet s.outputs id = none) :
    apply_api_output api_outputs height parent_key_id now s (c, id, m) = s := by
  simp only [apply_api_output, hget]

theorem apply_api_output_spent {api_outputs : List (Commit × Nat × Nat × Nat)}
    {height parent_key_id now : Nat} {s : WalletState} {c : Commit} {id : Nat} {m : Option Nat}
    {output : OutputData}
    (hget : batchGet s.outputs id = some output)
    (hapi : apiLookup api_outputs c = none) :
    apply_api_output api_outputs height parent_key_id now s (c, id, m)
      = { s with outputs := saveOutput output.mark_spent s.outputs } := by
  simp only [apply_api_output, hget, hapi]

theorem apply_api_output_reported_settled {api_outputs : List (Commit × Nat × Nat × Nat)}
    {height parent_key_id now : Nat} {s : WalletState} {c : Commit} {id : Nat} {m : Option Nat}
    {output : OutputData} {r : Nat × Nat × Nat}
    (hget : batchGet s.outputs id = some output)
    (hapi : apiLookup api_outputs c = some r)
    (hnc : ¬ output.status = OutputStatus.Unconfirmed) :
    apply_api_output api_outputs height parent_key_id now s (c, id, m)
      = { s with outputs := saveOutput (OutputData.mark_unspent { output with height := r.2.1 }) s.outputs } := by
  simp only [apply_api_output, hget, hapi]
  rw [if_neg (by simp [hnc]), if_neg (by simp [hnc])]

theorem apply_api_output_coinbase_outputs {api_outputs : List (Commit × Nat × Nat × Nat)}
    {height parent_key_id now : Nat} {s : WalletState} {c : Commit} {id : Nat} {m : Option Nat}
    {output : OutputData} {r : Nat × Nat × Nat}
    (hget : batchGet s.outputs id = some output)
    (hapi : apiLookup api_outputs c = some r)
    (hcb : output.is_coinbase = true)
    (hst : output.status = OutputStatus.Unconfirmed) :
    (apply_api_output api_outputs height parent_key_id now s (c, id, m)).outputs
      = saveOutput { output with
          tx_log_entry := some s.next_tx_log_id, height := r.2.1,
          status := OutputStatus.Unspent } s.outputs := by
  simp only [apply_api_output, hget, hapi]
  rw [if_pos (⟨hcb, hst⟩ : output.is_coinbase = true ∧
    output.status = OutputStatus.Unconfirmed)]
  rw [if_neg (show ¬ (({ output with tx_log_entry := some s.next_tx_log_id
    } : OutputData).is_coinbase = false ∧
    ({ output with tx_log_entry := some s.next_tx_log_id } : OutputData).status
      = OutputStatus.Unconfirmed) from by simp [hcb])]
  rw [mark_unspent_of_unconfirmed (by simpa using hst)]

theorem apply_api_output_noncoinbase_outputs {api_outputs : List (Commit × Nat × Nat × Nat)}
    {height parent_key_id now : Nat} {s : WalletState} {c : Commit} {id : Nat} {m : Option Nat}
    {output : OutputData} {r : Nat × Nat × Nat}
    (hget : batchGet s.outputs id = some output)
    (hapi : apiLookup api_outputs c = some r)
    (hcb : output.is_coinbase = false)
    (hst : output.status = OutputStatus.Unconfirmed) :
    (apply_api_output api_outputs height parent_key_id now s (c, id, m)).outputs
      = saveOutput { output with
          height := r.2.1, status := OutputStatus.Unspent } s.outputs := by
  simp only [apply_api_output, hget, hapi]
  rw [if_neg (show ¬ (output.is_coinbase = true ∧
    output.status = OutputStatus.Unconfirmed) from by simp [hcb])]
  rw [if_pos (⟨hcb, hst⟩ : output.is_coinbase = false ∧
    output.status = OutputStatus.Unconfirmed)]
  rw [mark_unspent_of_unconfirmed (by simpa using hst)]
  split <;> rfl

theorem apply_api_output_outputs_shape (api_outputs : List (Commit × Nat × Nat × Nat))
    (height parent_key_id now : Nat) (s : WalletState) (c : Commit) (id : Nat)
    (m : Option Nat) :
    (apply_api_output api_outputs height parent_key_id now s (c, id, m)).outputs
        = s.outputs ∨
      ∃ o2 : OutputData, o2.key_id = id ∧
        (apply_api_output api_outputs height parent_key_id now s (c, id, m)).outputs
          = saveOutput o2 s.outputs := by
  cases hget : batchGet s.outputs id with
  | none =>
    left
    rw [apply_api_output_get_none hget]
  | some o =>
    have hkey := batchGet_eq_some_key hget
    cases hapi2 : apiLookup api_outputs c with
    | none =>
      right
      refine ⟨o.mark_spent, ?_, ?_⟩
      · rw [mark_spent_key]
        exact hkey
      · rw [apply_api_output_spent hget hapi2]
    | some r =>
      by_cases hst : o.status = OutputStatus.Unconfirmed
      · cases hcb : o.is_coinbase with
        | true =>
          right
          refine ⟨_, ?_, apply_api_output_coinbase_outputs hget hapi2 hcb hst⟩
          exact hkey
        | false =>
          right
          refine ⟨_, ?_, apply_api_output_noncoinbase_outputs hget hapi2 hcb hst⟩
          exact hkey
      · right
        refine ⟨_, ?_, congrArg WalletState.outputs
          (apply_api_output_reported_settled hget hapi2 hst)⟩
        rw [mark_unspent_key]
        exact hkey

theorem apply_api_output_settled_id {api_outputs : List (Commit × Nat × Nat × Nat)}
    {height parent_key_id now : Nat} {s : WalletState} {c : Commit} {id : Nat} {m : Option Nat}
    (hsettled : entrySettled api_outputs s.outputs (c, id, m)) :
    apply_api_output api_outputs height parent_key_id now s (c, id, m) = s := by
  cases hget : batchGet s.outputs id with
  | none => exact apply_api_output_get_none hget
  | some o =>
    have hkey := batchGet_eq_some_key hget
    cases hapi2 : apiLookup api_outputs c with
    | none =>
      simp only [entrySettled, hget, hapi2] at hsettled
      rw [apply_api_output_spent hget hapi2, hsettled,
        saveOutput_of_batchGet_eq (by rw [hkey]; exact hget)]
    | some r =>
      simp only [entrySettled, hget, hapi2] at hsettled
      obtain ⟨hnc, hh⟩ := hsettled
      have ho : ({ o with height := r.2.1 } : OutputData) = o := by
        rw [← hh]
      rw [apply_api_output_reported_settled hget hapi2 hnc, ho,
        mark_unspent_of_not_unconfirmed hnc,
        saveOutput_of_batchGet_eq (by rw [hkey]; exact hget)]

theorem apply_api_output_settles (api_outputs : List (Commit × Nat × Nat × Nat))
    (height parent_key_id now : Nat) (s : WalletState) (c : Commit) (id : Nat)
    (m : Option Nat) :
    entrySettled api_outputs
      (apply_api_output api_outputs height parent_key_id now s (c, id, m)).outputs
      (c, id, m) := by
  cases hget : batchGet s.outputs id with
  | none =>
    rw [apply_api_output_get_none hget]
    simp only [entrySettled, hget]
  | some o =>
    have hkey := batchGet_eq_some_key hget
    cases hapi2 : apiLookup api_outputs c with
    | none =>
      rw [apply_api_output_spent hget hapi2]
      have hsome : batchGet (saveOutput o.mark_spent s.outputs) id = some o.mark_spent := by
        rw [← hkey, ← mark_spent_key o]
        exact batchGet_saveOutput_self _ _
      simp only [entrySettled, hsome, hapi2]
      exact mark_spent_mark_spent o
    | some r =>
      by_cases hst : o.status = OutputStatus.Unconfirmed
      · cases hcb : o.is_coinbase with
        | true =>
          rw [show (apply_api_output api_outputs height parent_key_id now s (c, id, m)).outputs
              = saveOutput { o with
                  tx_log_entry := some s.next_tx_log_id, height := r.2.1,
                  status := OutputStatus.Unspent } s.outputs
            from apply_api_output_coinbase_outputs hget hapi2 hcb hst]
          have hsome : batchGet (saveOutput { o with
              tx_log_entry := some s.next_tx_log_id, height := r.2.1,
              status := OutputStatus.Unspent } s.outputs) id
              = some { o with
                  tx_log_entry := some s.next_tx_log_id, height := r.2.1,
                  status := OutputStatus.Unspent } := by
            rw [← hkey]
            exact batchGet_saveOutput_self _ _
          simp only [entrySettled, hsome, hapi2]
          exact ⟨(by intro hc; cases hc), trivial⟩
        | false =>
          rw [show (apply_api_output api_outputs height parent_key_id now s (c, id, m)).outputs
              = saveOutput { o with
                  height := r.2.1, status := OutputStatus.Unspent } s.outputs
            from apply_api_output_noncoinbase_outputs hget hapi2 hcb hst]
          have hsome : batchGet (saveOutput { o with
              height := r.2.1, status := OutputStatus.Unspent } s.outputs) id
              = some { o with height := r.2.1, status := OutputStatus.Unspent } := by
            rw [← hkey]
            exact batchGet_saveOutput_self _ _
          simp only [entrySettled, hsome, hapi2]
          exact ⟨(by intro hc; cases hc), trivial⟩
      · rw [apply_api_output_reported_settled hget hapi2 hst,
          mark_unspent_of_not_unconfirmed (show
            ¬ ({ o with height := r.2.1 } : OutputData).status = OutputStatus.Unconfirmed
            from by simpa using hst)]
        have hsome : batchGet
            (saveOutput ({ o with height := r.2.1 } : OutputData) s.outputs) id
            = some ({ o with height := r.2.1 } : OutputData) := by
          rw [← hkey]
          exact batchGet_saveOutput_self _ _
        simp only [entrySettled, hsome, hapi2]
        exact ⟨(by simpa using hst), trivial⟩

theorem apply_api_output_preserves_settled {api_outputs : List (Commit × Nat × Nat × Nat)}
    {height parent_key_id now : Nat} {s : WalletState} {c : Commit} {id : Nat} {m : Option Nat}
    {e2 : Commit × Nat × Option Nat} (hne : id ≠ e2.2.1)
    (hsettled : entrySettled api_outputs s.outputs e2) :
    entrySettled api_outputs
      (apply_api_output api_outputs height parent_key_id now s (c, id, m)).outputs e2 := by
  rcases apply_api_output_outputs_shape api_outputs height parent_key_id now s c id m
    with heq | ⟨o2, hk2, heq⟩
  · rw [heq]
    exact hsettled
  · rw [heq]
    unfold entrySettled at hsettled ⊢
    rw [batchGet_saveOutput_other _ _ (by rw [hk2]; exact (Ne.symm hne))]
    exact hsettled

theorem foldl_apply_api_output_preserves (api_outputs : List (Commit × Nat × Nat × Nat))
    (height parent_key_id now : Nat) (l : List (Commit × Nat × Option Nat))
    (s : WalletState) (e : Commit × Nat × Option Nat)
    (hoth : ∀ e2 ∈ l, e2.2.1 ≠ e.2.1)
    (hsettled : entrySettled api_outputs s.outputs e) :
    entrySettled api_outputs
      ((l.foldl (apply_api_output api_outputs height parent_key_id now) s)).outputs e := by
  induction l generalizing s with
  | nil => exact hsettled
  | cons e0 l ih =>
    rw [List.foldl_cons]
    rcases e0 with ⟨c0, id0, m0⟩
    exact ih _ (fun e2 h2 => hoth e2 (List.mem_cons_of_mem _ h2))
      (apply_api_output_preserves_settled (hoth _ (List.mem_cons_self _ _)) hsettled)

theorem foldl_apply_api_output_settles (api_outputs : List (Commit × Nat × Nat × Nat))
    (height parent_key_id now : Nat) (l : List (Commit × Nat × Option Nat))
    (s : WalletState)
    (hnodup : (l.map (fun e => e.2.1)).Nodup) :
    ∀ e ∈ l, entrySettled api_outputs
      ((l.foldl (apply_api_output api_outputs height parent_key_id now) s)).outputs e := by
  induction l generalizing s with
  | nil =>
    intro e he
    cases he
  | cons e0 l ih =>
    rw [List.map_cons, List.nodup_cons] at hnodup
    obtain ⟨hnotin, hnd2⟩ := hnodup
    intro e he
    rcases List.mem_cons.mp he with rfl | hel
    · rw [List.foldl_cons]
      rcases e with ⟨c0, id0, m0⟩
      exact foldl_apply_api_output_preserves api_outputs height parent_key_id now l _ _
        (fun e2 h2 heq => hnotin (heq ▸ List.mem_map_of_mem _ h2))
        (apply_api_output_settles api_outputs height parent_key_id now s c0 id0 m0)
    · rw [List.foldl_cons]
      exact ih _ hnd2 e hel

theorem foldl_apply_api_output_id (api_outputs : List (Commit × Nat × Nat × Nat))
    (height parent_key_id now : Nat) (l : List (Commit × Nat × Option Nat))
    (s : WalletState)
    (hsettled : ∀ e ∈ l, entrySettled api_outputs s.outputs e) :
    l.foldl (apply_api_output api_outputs height parent_key_id now) s = s := by
  induction l with
  | nil => rfl
  | cons e0 l ih =>
    rcases e0 with ⟨c0, id0, m0⟩
    rw [List.foldl_cons,
      apply_api_output_settled_id (hsettled _ (List.mem_cons_self _ _)),
      ih (fun e he => hsettled e (List.mem_cons_of_mem _ he))]

/-!  Claim theorems.  -/

/-- C1: for every account and every node-reported chain-tip height
strictly below the wallet's stored last confirmed height,
apply_api_outputs succeeds and leaves the wallet state completely
unchanged: no output status change, no transaction-log change, the stored
last confirmed height untouched. -/
theorem apply_api_outputs_stale_tip_noop
    (wallet_outputs : List (Commit × Nat × Option Nat))
    (api_outputs : List (Commit × Nat × Nat × Nat))
    (height parent_key_id now : Nat) (s : WalletState)
    (h : height < s.last_confirmed_height) :
    apply_api_outputs wallet_outputs api_outputs height parent_key_id now s = s := by
  unfold apply_api_outputs
  rw [if_pos h]

/-- Witness for C1: last confirmed height 100 against a reported tip of
90 leaves the ledger identical and the height at 100. -/
theorem apply_api_outputs_stale_tip_noop_witness :
    (90 : Nat) < staleTipState.last_confirmed_height ∧
      apply_api_outputs coinbaseCandidates coinbaseApiOutputs 90 0 3 staleTipState
        = staleTipState :=
  ⟨by decide,
   apply_api_outputs_stale_tip_noop coinbaseCandidates coinbaseApiOutputs 90 0 3
     staleTipState (by decide)⟩

/-- C9: an account whose only output is Unspent with value 1000 at height
10, with last confirmed height 10 and minimum confirmations 0, has all
1000 currently spendable and every other bucket zero; the same output
made coinbase with lock height 20 is instead counted immature. -/
theorem retrieve_info_buckets :
    retrieve_info 0 0 summaryState =
      { last_confirmed_height := 10, minimum_confirmations := 0, total := 1000,
        amount_awaiting_finalization := 0, amount_awaiting_confirmation := 0,
        amount_immature := 0, amount_locked := 0, amount_currently_spendable := 1000 } ∧
    retrieve_info 0 0 summaryCoinbaseState =
      { last_confirmed_height := 10, minimum_confirmations := 0, total := 1000,
        amount_awaiting_finalization := 0, amount_awaiting_confirmation := 0,
        amount_immature := 1000, amount_locked := 0, amount_currently_spendable := 0 } := by
  decide

/-- C10: below chain height 50 the cleanup pass succeeds without deleting
any output, so the subtraction height minus 50 is never reached. -/
theorem clean_old_unconfirmed_below_50_noop (height : Nat) (s : WalletState)
    (h : height < 50) : clean_old_unconfirmed height s = s := by
  unfold clean_old_unconfirmed
  rw [if_pos h]

/-- Witness for C10: at height 49 the stale coinbase wallet is untouched. -/
theorem clean_old_unconfirmed_below_50_noop_witness :
    (49 : Nat) < 50 ∧ clean_old_unconfirmed 49 stale5State = stale5State :=
  ⟨by decide, clean_old_unconfirmed_below_50_noop 49 stale5State (by decide)⟩

/-- C5 counterexample: an Unconfirmed coinbase output created at height 5
is still retained when the current height is 55, because 5 is not
strictly below 55 - 50; the claim asserts it is purged once the height
reaches 55. -/
theorem clean_old_unconfirmed_retains_at_55 :
    (clean_old_unconfirmed 55 stale5State).outputs = [stale5Output] ∧
      stale5Output.status = OutputStatus.Unconfirmed ∧
      stale5Output.is_coinbase = true ∧ stale5Output.height = 5 := by
  decide

/-- C5 (amended): for every current chain height, provided output key
identifiers are unique, the cleanup pass hard-deletes exactly the outputs
that are Unconfirmed, coinbase, of height above 0 and of height strictly
below (current height - 50); in particular the height 5 coinbase
candidate is purged once the current height is at least 56 and retained
while it is at most 55. -/
theorem clean_old_unconfirmed_deletes_exactly (height : Nat) (s : WalletState)
    (hnodup : (s.outputs.map (fun o => o.key_id)).Nodup) :
    (clean_old_unconfirmed height s).outputs = s.outputs.filter (fun out =>
      !(out.status == OutputStatus.Unconfirmed && out.height > 0
        && out.height < height - 50 && out.is_coinbase)) := by
  by_cases h50 : height < 50
  · unfold clean_old_unconfirmed
    rw [if_pos h50]
    symm
    rw [List.filter_eq_self]
    intro a _
    have hz : height - 50 = 0 := Nat.sub_eq_zero_of_le (Nat.le_of_lt h50)
    simp [hz]
  · unfold clean_old_unconfirmed
    rw [if_neg h50]
    simp only
    rw [foldl_deleteOutput_eq_filter]
    apply List.filter_congr
    intro x hx
    congr 1
    by_cases hp : (x.status == OutputStatus.Unconfirmed && decide (x.height > 0)
        && decide (x.height < height - 50) && x.is_coinbase) = true
    · rw [hp]
      rw [List.contains_iff_exists_mem_beq]
      exact ⟨x.key_id, List.mem_map_of_mem _ (List.mem_filter.mpr ⟨hx, hp⟩), by simp⟩
    · rw [Bool.eq_false_iff.mpr hp, ← Bool.not_eq_true]
      intro hcon
      rw [List.contains_iff_exists_mem_beq] at hcon
      obtain ⟨k, hk, hbeq⟩ := hcon
      obtain ⟨y, hy, hyk⟩ := List.mem_map.mp hk
      have hyx : y = x := by
        have hky : x.key_id = y.key_id := by
          have := (beq_iff_eq.mp hbeq)
          omega
        exact List.inj_on_of_nodup_map hnodup (List.mem_filter.mp hy).1 hx hky.symm
      exact hp (hyx ▸ (List.mem_filter.mp hy).2)

/-- Witness for C5 (amended): the height 5 coinbase candidate wallet has
unique keys and at height 56 the output is deleted. -/
theorem clean_old_unconfirmed_deletes_exactly_witness :
    (stale5State.outputs.map (fun o => o.key_id)).Nodup ∧
      (clean_old_unconfirmed 56 stale5State).outputs = stale5State.outputs.filter (fun out =>
        !(out.status == OutputStatus.Unconfirmed && out.height > 0
          && out.height < 56 - 50 && out.is_coinbase)) :=
  ⟨by decide, clean_old_unconfirmed_deletes_exactly 56 stale5State (by decide)⟩

/-- C8 counterexample: with update_all false, a non-Spent output carrying
no linked transaction-log entry is included as a candidate even though
the transaction log is empty, so no non-confirmed TxSent or TxReceived
entry references it. -/
theorem map_wallet_outputs_candidates_includes_unlinked :
    map_wallet_outputs_candidates 0 false unlinkedState = [baseOutput] ∧
      unlinkedState.txLog = [] ∧ baseOutput.tx_log_entry = none := by
  decide

/-- C8 (amended): with update_all false, the candidate set contains
exactly the account's non-Spent outputs that either carry no linked
transaction-log id or are referenced by a non-confirmed TxSent or
TxReceived entry of the account. -/
theorem map_wallet_outputs_candidates_spec (p : Nat) (s : WalletState) (o : OutputData) :
    o ∈ map_wallet_outputs_candidates p false s ↔
      (o ∈ s.outputs ∧ o.root_key_id = p ∧ o.status ≠ OutputStatus.Spent ∧
        (o.tx_log_entry = none ∨ ∃ te, te ∈ s.txLog ∧ o.tx_log_entry = some te.id ∧
          te.parent_key_id = p ∧ te.confirmed = false ∧
          (te.tx_type = TxLogEntryType.TxSent ∨ te.tx_type = TxLogEntryType.TxReceived))) := by
  unfold map_wallet_outputs_candidates
  simp only
  rw [List.mem_filter, List.mem_filter]
  constructor
  · rintro ⟨⟨ho, hflt⟩, hcand⟩
    simp only [Bool.and_eq_true, beq_iff_eq, bne_iff_ne] at hflt
    refine ⟨ho, hflt.1, hflt.2, ?_⟩
    cases hlog : o.tx_log_entry with
    | none => exact Or.inl rfl
    | some t =>
      rw [hlog] at hcand
      rw [Option.isSome_iff_exists] at hcand
      obtain ⟨te, hte⟩ := hcand
      have htmem := List.mem_of_find?_eq_some hte
      have htid : te.id = t := by simpa using List.find?_some hte
      rw [mem_retrieve_txs_outstanding] at htmem
      exact Or.inr ⟨te, htmem.1, by simp [htid], htmem.2.1, htmem.2.2.1, htmem.2.2.2.symm⟩
  · rintro ⟨ho, hroot, hst, hcand⟩
    refine ⟨⟨ho, by simp [hroot, hst]⟩, ?_⟩
    cases hlog : o.tx_log_entry with
    | none => simp
    | some t =>
      simp only [Option.isSome_iff_exists]
      rcases hcand with hnone | ⟨te, htmem, hteq, htp, htc, htty⟩
      · rw [hlog] at hnone
        exact absurd hnone (by simp)
      · rw [hlog] at hteq
        have htid : te.id = t := by injection hteq.symm
        have : te ∈ retrieve_txs s.txLog none none (some p) true :=
          mem_retrieve_txs_outstanding.mpr ⟨htmem, htp, htc, htty.symm⟩
        have hsome : (List.find? (fun te2 => te2.id == t)
            (retrieve_txs s.txLog none none (some p) true)).isSome = true := by
          rw [List.find?_isSome]
          exact ⟨te, this, by simp [htid]⟩
        rw [Option.isSome_iff_exists] at hsome
        exact hsome

/-- C2: for every TxSent or TxReceived entry of its account and every
list of its outputs with distinct key identifiers, cancellation deletes
every Unconfirmed output, reverts every Locked output to Unspent, and
flips the entry's type to its Cancelled variant, all effects visible
together in the resulting committed state. -/
theorem cancel_tx_and_outputs_spec (tx : TxLogEntry) (outputs : List OutputData)
    (parent_key_id : Nat) (s : WalletState)
    (hnodup : (outputs.map (fun o => o.key_id)).Nodup)
    (hty : tx.tx_type = TxLogEntryType.TxSent ∨ tx.tx_type = TxLogEntryType.TxReceived)
    (hp : tx.parent_key_id = parent_key_id) :
    (∀ o ∈ outputs, o.status = OutputStatus.Unconfirmed →
      batchGet (cancel_tx_and_outputs tx outputs parent_key_id s).outputs o.key_id = none) ∧
    (∀ o ∈ outputs, o.status = OutputStatus.Locked →
      batchGet (cancel_tx_and_outputs tx outputs parent_key_id s).outputs o.key_id
        = some { o with status := OutputStatus.Unspent }) ∧
    lookupTx (cancel_tx_and_outputs tx outputs parent_key_id s).txLog parent_key_id tx.id
      = some { tx with tx_type :=
          if tx.tx_type = TxLogEntryType.TxSent then TxLogEntryType.TxSentCancelled
          else TxLogEntryType.TxReceivedCancelled } := by
  have houts : (cancel_tx_and_outputs tx outputs parent_key_id s).outputs
      = (outputs.foldl cancel_output_step s).outputs := rfl
  refine ⟨?_, ?_, ?_⟩
  · intro o ho hst
    rw [houts]
    exact (foldl_cancel_output_step_spec outputs s hnodup).1 o ho hst
  · intro o ho hst
    rw [houts]
    exact (foldl_cancel_output_step_spec outputs s hnodup).2 o ho hst
  · rcases hty with hsent | hrecv
    · have hstep : cancel_tx_and_outputs tx outputs parent_key_id s
          = { outputs.foldl cancel_output_step s with
              txLog := saveTxLogEntry { tx with tx_type := TxLogEntryType.TxSentCancelled }
                parent_key_id (outputs.foldl cancel_output_step s).txLog } := by
        simp only [cancel_tx_and_outputs]
        rw [if_pos hsent]
        rfl
      rw [hstep, if_pos hsent]
      exact lookupTx_saveTxLogEntry_self _ _ _ hp
    · have hns : ¬ tx.tx_type = TxLogEntryType.TxSent := by
        rw [hrecv]
        intro h
        cases h
      have hstep : cancel_tx_and_outputs tx outputs parent_key_id s
          = { outputs.foldl cancel_output_step s with
              txLog := saveTxLogEntry { tx with tx_type := TxLogEntryType.TxReceivedCancelled }
                parent_key_id (outputs.foldl cancel_output_step s).txLog } := by
        simp only [cancel_tx_and_outputs]
        rw [if_neg hns, if_pos hrecv]
      rw [hstep, if_neg hns]
      exact lookupTx_saveTxLogEntry_self _ _ _ hp

/-- C7: receive_coinbase saves and commits, before the cryptographic
reward-output construction is consulted, a new Unconfirmed coinbase
output of value reward(fees, height) at the request height, with lock
height equal to the request height plus the coinbase maturity and no
linked transaction-log entry; the committed state does not depend on the
reward-output capability at all, so it stands even when that construction
fails. -/
theorem receive_coinbase_saves_output_before_reward (cfg : Config)
    (f : Nat → Nat → Nat → Option RewardOut) (block_fees : BlockFees) (s : WalletState) :
    batchGet (receive_coinbase cfg block_fees s).1.outputs (coinbase_key_select block_fees s).1
      = some { root_key_id := s.parent_key_id,
               key_id := (coinbase_key_select block_fees s).1,
               n_child := (coinbase_key_select block_fees s).1,
               mmr_index := none,
               commit := some (Commit.fromKey (reward cfg block_fees.fees block_fees.height)
                 (coinbase_key_select block_fees s).1),
               value := reward cfg block_fees.fees block_fees.height,
               status := OutputStatus.Unconfirmed,
               height := block_fees.height,
               lock_height := block_fees.height + cfg.coinbase_maturity,
               is_coinbase := true, tx_log_entry := none } ∧
    (receive_coinbase { cfg with reward_output := f } block_fees s).1
      = (receive_coinbase cfg block_fees s).1 := by
  constructor
  · rw [receive_coinbase_state]
    exact batchGet_saveOutput_self _ _
  · rw [receive_coinbase_state, receive_coinbase_state]
    rfl

/-- C6: with a pre-selected key identifier that maps to an existing
tracked key, receive_coinbase and receive_foundation reuse that key and
allocate nothing, so a second identical request yields the identical
state and the same key; with no pre-selected key, or one that maps to no
existing key, the next available key is allocated. -/
theorem receive_coinbase_key_reuse (cfg : Config) (bf bf2 bf3 : BlockFees)
    (s : WalletState) (k k3 : Nat)
    (h1 : bf.key_id = some k) (h2 : retrieve_existing_key s k = some k)
    (h3 : bf2.key_id = none)
    (h4 : bf3.key_id = some k3) (h5 : retrieve_existing_key s k3 = none) :
    (coinbase_key_select bf s).1 = k ∧
    (coinbase_key_select bf s).2 = s ∧
    (coinbase_key_select bf (receive_coinbase cfg bf s).1).1 = k ∧
    (receive_coinbase cfg bf (receive_coinbase cfg bf s).1).1
      = (receive_coinbase cfg bf s).1 ∧
    (receive_foundation cfg bf (receive_foundation cfg bf s).1).1
      = (receive_foundation cfg bf s).1 ∧
    (coinbase_key_select bf2 s).1 = (next_available_key s).1 ∧
    (coinbase_key_select bf3 s).1 = (next_available_key s).1 := by
  have hks : ∀ s2 : WalletState, retrieve_existing_key s2 k = some k →
      coinbase_key_select bf s2 = (k, s2) := by
    intro s2 hr
    unfold coinbase_key_select
    rw [h1]
    show (match retrieve_existing_key s2 k with
      | some k0 => (k0, s2)
      | none => next_available_key s2) = (k, s2)
    rw [hr]
  have hk1 : coinbase_key_select bf s = (k, s) := hks s h2
  have hget1 : batchGet (receive_coinbase cfg bf s).1.outputs k = some
      { root_key_id := s.parent_key_id, key_id := k, n_child := k, mmr_index := none,
        commit := some (Commit.fromKey (reward cfg bf.fees bf.height) k),
        value := reward cfg bf.fees bf.height, status := OutputStatus.Unconfirmed,
        height := bf.height, lock_height := bf.height + cfg.coinbase_maturity,
        is_coinbase := true, tx_log_entry := none } := by
    rw [receive_coinbase_state, hk1]
    exact batchGet_saveOutput_self _ s.outputs
  have hgetF : batchGet (receive_foundation cfg bf s).1.outputs k = some
      { root_key_id := s.parent_key_id, key_id := k, n_child := k, mmr_index := none,
        commit := some (Commit.fromKey (cfg.foundation_schedule bf.height) k),
        value := cfg.foundation_schedule bf.height, status := OutputStatus.Unconfirmed,
        height := bf.height, lock_height := bf.height + cfg.coinbase_maturity,
        is_coinbase := true, tx_log_entry := none } := by
    rw [receive_foundation_state, hk1]
    exact batchGet_saveOutput_self _ s.outputs
  have hre : retrieve_existing_key (receive_coinbase cfg bf s).1 k = some k := by
    unfold retrieve_existing_key
    rw [hget1]
    rfl
  have hpar : (receive_coinbase cfg bf s).1.parent_key_id = s.parent_key_id := by
    rw [receive_coinbase_state, hk1]
  have hparF : (receive_foundation cfg bf s).1.parent_key_id = s.parent_key_id := by
    rw [receive_foundation_state, hk1]
  refine ⟨by rw [hk1], by rw [hk1], by rw [hks _ hre], ?_, ?_, ?_, ?_⟩
  · exact receive_coinbase_reuse_step cfg bf _ k s.parent_key_id h1 hget1 hpar
  · exact receive_foundation_reuse_step cfg bf _ k s.parent_key_id h1 hgetF hparF
  · unfold coinbase_key_select
    rw [h3]
  · have hsel3 : coinbase_key_select bf3 s = next_available_key s := by
      unfold coinbase_key_select
      rw [h4]
      show (match retrieve_existing_key s k3 with
        | some k0 => (k0, s)
        | none => next_available_key s) = next_available_key s
      rw [h5]
    rw [hsel3]

/-- Witness for C6: with key 1 already tracked in the wallet, a request
pre-selecting key 1 reuses it across two identical builds, while a
request with no key or with the unknown key 99 allocates the next
available key. -/
theorem receive_coinbase_key_reuse_witness :
    sampleBlockFees.key_id = some 1 ∧
    retrieve_existing_key unlinkedState 1 = some 1 ∧
    (BlockFees.mk 2 100 none).key_id = none ∧
    (BlockFees.mk 2 100 (some 99)).key_id = some 99 ∧
    retrieve_existing_key unlinkedState 99 = none ∧
    ((coinbase_key_select sampleBlockFees unlinkedState).1 = 1 ∧
     (coinbase_key_select sampleBlockFees unlinkedState).2 = unlinkedState ∧
     (coinbase_key_select sampleBlockFees
       (receive_coinbase sampleConfig sampleBlockFees unlinkedState).1).1 = 1 ∧
     (receive_coinbase sampleConfig sampleBlockFees
       (receive_coinbase sampleConfig sampleBlockFees unlinkedState).1).1
       = (receive_coinbase sampleConfig sampleBlockFees unlinkedState).1 ∧
     (receive_foundation sampleConfig sampleBlockFees
       (receive_foundation sampleConfig sampleBlockFees unlinkedState).1).1
       = (receive_foundation sampleConfig sampleBlockFees unlinkedState).1 ∧
     (coinbase_key_select (BlockFees.mk 2 100 none) unlinkedState).1
       = (next_available_key unlinkedState).1 ∧
     (coinbase_key_select (BlockFees.mk 2 100 (some 99)) unlinkedState).1
       = (next_available_key unlinkedState).1) :=
  ⟨rfl, by decide, rfl, rfl, by decide,
   receive_coinbase_key_reuse sampleConfig sampleBlockFees (BlockFees.mk 2 100 none)
     (BlockFees.mk 2 100 (some 99)) unlinkedState 1 99 rfl (by decide) rfl rfl (by decide)⟩

/-- C4: for a candidate output that the node reports and that is a
coinbase output in status Unconfirmed, the reconciliation step appends
exactly one new ConfirmedCoinbase entry, confirmed, crediting the
output's value and debiting nothing, whose kernel excess is the
commitment-sum of the output's commitment with a fresh value-only
commitment to the output's value; the stored output's tx_log_entry is set
to the new entry's id, and the log-id counter advances by one. -/
theorem apply_api_output_coinbase_confirmation
    (api_outputs : List (Commit × Nat × Nat × Nat)) (height parent_key_id now : Nat)
    (s : WalletState) (c : Commit) (id : Nat) (m : Option Nat)
    (output : OutputData) (r : Nat × Nat × Nat)
    (hget : batchGet s.outputs id = some output)
    (hapi : apiLookup api_outputs c = some r)
    (hcb : output.is_coinbase = true)
    (hst : output.status = OutputStatus.Unconfirmed)
    (hfresh : ∀ x ∈ s.txLog, ¬(x.parent_key_id = parent_key_id ∧ x.id = s.next_tx_log_id)) :
    (apply_api_output api_outputs height parent_key_id now s (c, id, m)).txLog
      = s.txLog ++
        [{ parent_key_id := parent_key_id, id := s.next_tx_log_id,
           tx_slate_id := none, tx_type := TxLogEntryType.ConfirmedCoinbase,
           creation_ts := now, confirmation_ts := some now, confirmed := true,
           amount_credited := output.value, amount_debited := 0, num_inputs := 0,
           num_outputs := 1,
           kernel_excess := some (commit_sum [c] [Commit.valueOnly output.value]),
           kernel_lookup_min_height := some height }] ∧
    batchGet (apply_api_output api_outputs height parent_key_id now s (c, id, m)).outputs id
      = some { output with
               tx_log_entry := some s.next_tx_log_id, height := r.2.1,
               status := OutputStatus.Unspent } ∧
    (apply_api_output api_outputs height parent_key_id now s (c, id, m)).next_tx_log_id
      = s.next_tx_log_id + 1 := by
  have hkey : output.key_id = id := batchGet_eq_some_key hget
  simp only [apply_api_output, hget, hapi]
  rw [if_pos (⟨hcb, hst⟩ : output.is_coinbase = true ∧
    output.status = OutputStatus.Unconfirmed)]
  rw [if_neg (show ¬ (({ output with tx_log_entry := some s.next_tx_log_id
    } : OutputData).is_coinbase = false ∧
    ({ output with tx_log_entry := some s.next_tx_log_id } : OutputData).status
      = OutputStatus.Unconfirmed) from by simp [hcb])]
  rw [mark_unspent_of_unconfirmed (by simpa using hst)]
  refine ⟨?_, ?_, rfl⟩
  · show saveTxLogEntry _ parent_key_id s.txLog = _
    rw [saveTxLogEntry_append (by intro x hx; simpa using hfresh x hx)]
    rfl
  · rw [← hkey]
    exact batchGet_saveOutput_self _ _

/-- Witness for C4: confirming the stale height 5 coinbase candidate at
node-observed height 42 appends one ConfirmedCoinbase entry crediting 7
and links the output to it. -/
theorem apply_api_output_coinbase_confirmation_witness :
    batchGet stale5State.outputs 1 = some stale5Output ∧
    apiLookup coinbaseApiOutputs (Commit.fromKey 7 1) = some (99, 42, 3) ∧
    stale5Output.is_coinbase = true ∧
    stale5Output.status = OutputStatus.Unconfirmed ∧
    (∀ x ∈ stale5State.txLog,
      ¬(x.parent_key_id = 0 ∧ x.id = stale5State.next_tx_log_id)) ∧
    ((apply_api_output coinbaseApiOutputs 60 0 11 stale5State
        (Commit.fromKey 7 1, 1, none)).txLog
      = stale5State.txLog ++
        [{ parent_key_id := 0, id := stale5State.next_tx_log_id,
           tx_slate_id := none, tx_type := TxLogEntryType.ConfirmedCoinbase,
           creation_ts := 11, confirmation_ts := some 11, confirmed := true,
           amount_credited := stale5Output.value, amount_debited := 0, num_inputs := 0,
           num_outputs := 1,
           kernel_excess := some (commit_sum [Commit.fromKey 7 1]
             [Commit.valueOnly stale5Output.value]),
           kernel_lookup_min_height := some 60 }] ∧
    batchGet (apply_api_output coinbaseApiOutputs 60 0 11 stale5State
        (Commit.fromKey 7 1, 1, none)).outputs 1
      = some { stale5Output with
               tx_log_entry := some stale5State.next_tx_log_id, height := (99, 42, 3).2.1,
               status := OutputStatus.Unspent } ∧
    (apply_api_output coinbaseApiOutputs 60 0 11 stale5State
        (Commit.fromKey 7 1, 1, none)).next_tx_log_id
      = stale5State.next_tx_log_id + 1) :=
  ⟨by decide, by decide, by decide, by decide, by decide,
   apply_api_output_coinbase_confirmation coinbaseApiOutputs 60 0 11 stale5State
     (Commit.fromKey 7 1) 1 none stale5Output (99, 42, 3)
     (by decide) (by decide) (by decide) (by decide) (by decide)⟩

theorem apply_api_outputs_of_settled (wallet_outputs : List (Commit × Nat × Option Nat))
    (api_outputs : List (Commit × Nat × Nat × Nat))
    (height parent_key_id now : Nat) (t : WalletState)
    (hns : ¬ height < t.last_confirmed_height)
    (hset : ∀ e ∈ wallet_outputs, entrySettled api_outputs t.outputs e)
    (hlast : t.last_confirmed_height = height) :
    apply_api_outputs wallet_outputs api_outputs height parent_key_id now t = t := by
  unfold apply_api_outputs
  rw [if_neg hns, foldl_apply_api_output_id _ _ _ _ _ _ hset, ← hlast]

/-- C3: reconciliation is idempotent: applying apply_api_outputs a second
time with the same candidate map, the same node-reported set and the same
height leaves the wallet state exactly as after the first application; in
particular no second ConfirmedCoinbase entry is created for an
already-confirmed coinbase output. -/
theorem apply_api_outputs_idempotent
    (wallet_outputs : List (Commit × Nat × Option Nat))
    (api_outputs : List (Commit × Nat × Nat × Nat))
    (height parent_key_id now1 now2 : Nat) (s : WalletState)
    (hnodup : (wallet_outputs.map (fun e => e.2.1)).Nodup) :
    apply_api_outputs wallet_outputs api_outputs height parent_key_id now2
      (apply_api_outputs wallet_outputs api_outputs height parent_key_id now1 s)
      = apply_api_outputs wallet_outputs api_outputs height parent_key_id now1 s := by
  by_cases hgate : height < s.last_confirmed_height
  · have hfirst : apply_api_outputs wallet_outputs api_outputs height parent_key_id now1 s
        = s := by
      unfold apply_api_outputs
      rw [if_pos hgate]
    rw [hfirst]
    unfold apply_api_outputs
    rw [if_pos hgate]
  · have hlast : (apply_api_outputs wallet_outputs api_outputs height parent_key_id
        now1 s).last_confirmed_height = height := by
      unfold apply_api_outputs
      rw [if_neg hgate]
    have houts : (apply_api_outputs wallet_outputs api_outputs height parent_key_id
        now1 s).outputs
        = (wallet_outputs.foldl
            (apply_api_output api_outputs height parent_key_id now1) s).outputs := by
      unfold apply_api_outputs
      rw [if_neg hgate]
    refine apply_api_outputs_of_settled _ _ _ _ _ _ ?_ ?_ hlast
    · rw [hlast]
      exact Nat.lt_irrefl height
    · intro e he
      rw [houts]
      exact foldl_apply_api_output_settles api_outputs height parent_key_id now1
        wallet_outputs s hnodup e he

/-- Witness for C3: confirming the stale coinbase candidate twice, with
the same reported set and height, yields the state of the first pass. -/
theorem apply_api_outputs_idempotent_witness :
    (coinbaseCandidates.map (fun e => e.2.1)).Nodup ∧
    apply_api_outputs coinbaseCandidates coinbaseApiOutputs 60 0 12
      (apply_api_outputs coinbaseCandidates coinbaseApiOutputs 60 0 11 stale5State)
      = apply_api_outputs coinbaseCandidates coinbaseApiOutputs 60 0 11 stale5State :=
  ⟨by decide,
   apply_api_outputs_idempotent coinbaseCandidates coinbaseApiOutputs 60 0 11 12
     stale5State (by decide)⟩

/-- Witness for C2: cancelling a TxSent entry whose outputs are one
Locked and one Unconfirmed output leaves the Locked one Unspent, removes
the Unconfirmed one, and flips the entry type, together. -/
theorem cancel_tx_and_outputs_spec_witness :
    ([lockedOutput, unconfOutput].map (fun o => o.key_id)).Nodup ∧
    (sentEntry.tx_type = TxLogEntryType.TxSent ∨
      sentEntry.tx_type = TxLogEntryType.TxReceived) ∧
    sentEntry.parent_key_id = 0 ∧
    ((∀ o ∈ [lockedOutput, unconfOutput], o.status = OutputStatus.Unconfirmed →
      batchGet (cancel_tx_and_outputs sentEntry [lockedOutput, unconfOutput] 0
        cancelState).outputs o.key_id = none) ∧
    (∀ o ∈ [lockedOutput, unconfOutput], o.status = OutputStatus.Locked →
      batchGet (cancel_tx_and_outputs sentEntry [lockedOutput, unconfOutput] 0
        cancelState).outputs o.key_id = some { o with status := OutputStatus.Unspent }) ∧
    lookupTx (cancel_tx_and_outputs sentEntry [lockedOutput, unconfOutput] 0
        cancelState).txLog 0 sentEntry.id
      = some { sentEntry with tx_type :=
          if sentEntry.tx_type = TxLogEntryType.TxSent then TxLogEntryType.TxSentCancelled
          else TxLogEntryType.TxReceivedCancelled }) :=
  ⟨by decide, by decide, by decide,
   cancel_tx_and_outputs_spec sentEntry [lockedOutput, unconfOutput] 0 cancelState
     (by decide) (by decide) (by decide)⟩

end EpicWallet
